import Mathlib

/-!
Shallow embedding of `bert.py` (extractive summarization glue code) and proofs
about it.  Numeric values are modelled as exact rationals; external NLP and
model collaborators (NLTK tokenizers, the BERT encoder, the summarizer
library's `ClusterFeatures` clusterer) are threaded in as explicit function
parameters, since their code is not part of this repository.
-/

/-! ## Embedding of `ModelProcessor` (bert.py lines 27-251) -/

/-- Context for a `ModelProcessor` instance.  `modelFn` embeds the external
`BertParent` call `self.model(content, hidden, reduce_option)` producing one
vector per sentence; `clusterFn` is modelled from the spec: the external
`ClusterFeatures(hidden, algorithm, random_state).cluster(ratio, num_sentences)`
call is not in this repository and, per the spec's determinism contract, is a
pure function of the vectors, the algorithm, the random state, the ratio and
the explicit count; `sentenceHandler` embeds `self.sentence_handler(body,
min_length, max_length)`.  `hidden`, `reduceOption`, `randomState` are the
fields set in `__init__` (lines 58-63). -/
structure BertCtx where
  modelFn : List String → Int → String → List (List ℚ)
  clusterFn : List (List ℚ) → String → Nat → ℚ → Option Int → List Nat
  sentenceHandler : String → Int → Int → List String
  hidden : Int
  reduceOption : String
  randomState : Nat

/-- The `use_first` adjustment of the cluster index list
(bert.py lines 103-109): an empty list becomes `[0]`, and `0` is inserted in
front when the first entry is not `0`. -/
def clusterRunnerArgs (hiddenArgs : List Nat) (useFirst : Bool) : List Nat :=
  if useFirst then
    match hiddenArgs with
    | [] => [0]
    | a :: rest => if a ≠ 0 then 0 :: a :: rest else a :: rest
  else hiddenArgs

/-- Embeds `ModelProcessor.cluster_runner` (bert.py lines 78-114): obtain one
embedding per sentence, run the clusterer, apply the `use_first` adjustment,
and select the corresponding sentences and embeddings.  (Lines 97-98 of the
source reassign `num_sentences` to itself and are a no-op.)  Indexing
`content[j]` / `hidden[j]` is embedded with `getD`; the clusterer only
produces in-range indices. -/
def cluster_runner (ctx : BertCtx) (content : List String) ( ratio : ℚ)
    (algorithm : String) (useFirst : Bool) (numSentences : Option Int) :
    List String × List (List ℚ) :=
  let hidden := ctx.modelFn content ctx.hidden ctx.reduceOption
  let hiddenArgs := ctx.clusterFn hidden algorithm ctx.randomState ratio numSentences
  let args := clusterRunnerArgs hiddenArgs useFirst
  (args.map (fun j => content.getD j ""), args.map (fun j => hidden.getD j []))

/-- Embeds `ModelProcessor.__run_clusters` (bert.py lines 116-136). -/
def run_clusters (ctx : BertCtx) (content : List String) ( ratio : ℚ)
    (algorithm : String) (useFirst : Bool) (numSentences : Option Int) : List String :=
  (cluster_runner ctx content ratio algorithm useFirst numSentences).1

/-- Embeds `ModelProcessor.__retrieve_summarized_embeddings`
(bert.py lines 138-152). -/
def retrieve_summarized_embeddings (ctx : BertCtx) (content : List String) ( ratio : ℚ)
    (algorithm : String) (useFirst : Bool) (numSentences : Option Int) : List (List ℚ) :=
  (cluster_runner ctx content ratio algorithm useFirst numSentences).2

/-- Insertion of one element into an ascending list (helper for `pySorted`). -/
def insSorted {α : Type} [LinearOrder α] (x : α) : List α → List α
  | [] => [x]
  | y :: ys => if x ≤ y then x :: y :: ys else y :: insSorted x ys

/-- Embeds Python's `sorted` on a list of comparable values (ascending). -/
def pySorted {α : Type} [LinearOrder α] (l : List α) : List α :=
  l.foldr insSorted []

/-- Column-wise minimum, embedding `np.min(_, axis=0)` on one column. -/
def colMin (col : List ℚ) : ℚ :=
  match col with
  | [] => 0
  | x :: xs => xs.foldl min x

/-- Column-wise maximum, embedding `np.max(_, axis=0)` on one column. -/
def colMax (col : List ℚ) : ℚ :=
  match col with
  | [] => 0
  | x :: xs => xs.foldl max x

/-- Column-wise mean, embedding `np.mean(_, axis=0)` on one column. -/
def colMean (col : List ℚ) : ℚ := col.sum / col.length

/-- Column-wise median, embedding `np.median(_, axis=0)` on one column
(sorts and takes the middle element, averaging the two middle elements for an
even count; the empty case never arises on the paths below). -/
def colMedian (col : List ℚ) : ℚ :=
  let s := pySorted col
  let n := s.length
  if n % 2 = 1 then s.getD (n / 2) 0
  else (s.getD (n / 2 - 1) 0 + s.getD (n / 2) 0) / 2

/-- Embeds the `aggregate_map` class attribute (bert.py lines 29-34): a map
from reduction name to a function reducing a matrix along axis 0. -/
def aggregate_map (key : String) : Option (List (List ℚ) → List ℚ) :=
  if key = "mean" then some (fun m => m.transpose.map colMean)
  else if key = "min" then some (fun m => m.transpose.map colMin)
  else if key = "median" then some (fun m => m.transpose.map colMedian)
  else if key = "max" then some (fun m => m.transpose.map colMax)
  else none

/-- Looks up and applies the reduction named `key` (the dictionary access
`self.aggregate_map[aggregate](embeddings, axis=0)` on line 187). -/
def applyAggregate (key : String) (m : List (List ℚ)) : List ℚ :=
  match aggregate_map key with
  | some f => f m
  | none => []

/-- Result of `run_embeddings` when sentences survive: either the raw selected
embeddings (a matrix) or one aggregated vector. -/
inductive EmbResult where
  | raw (m : List (List ℚ))
  | agg (v : List ℚ)
deriving DecidableEq

/-- Embeds `ModelProcessor.run_embeddings` (bert.py lines 154-191).  The first
component is the returned value (`Except.error` embeds the `assert` on
line 186 firing); the second component counts how many model computations
(embedding extraction plus clustering, performed together inside
`cluster_runner`) have run before the function returns or raises. -/
def run_embeddings (ctx : BertCtx) (body : String) ( ratio : ℚ)
    (minLength maxLength : Int) (useFirst : Bool) (algorithm : String)
    (numSentences : Option Int) (aggregate : Option String) :
    Except String (Option EmbResult) × Nat :=
  let sentences := ctx.sentenceHandler body minLength maxLength
  if sentences = [] then (Except.ok none, 0)
  else
    let embeddings := retrieve_summarized_embeddings ctx sentences ratio algorithm useFirst numSentences
    match aggregate with
    | none => (Except.ok (some (EmbResult.raw embeddings)), 1)
    | some a =>
      if a ∈ (["mean", "median", "max", "min"] : List String) then
        (Except.ok (some (EmbResult.agg (applyAggregate a embeddings))), 1)
      else
        (Except.error "aggregate must be mean, min, max, or median", 1)

/-- Embeds `ModelProcessor.run` (bert.py lines 193-221): segment, cluster when
any sentence survives, and join the resulting sentences with single spaces.
There is no raising operation on any path of `run`, so its result is a plain
pair; the second component again counts model computations. -/
def run (ctx : BertCtx) (body : String) ( ratio : ℚ)
    (minLength maxLength : Int) (useFirst : Bool) (algorithm : String)
    (numSentences : Option Int) : String × Nat :=
  let sentences := ctx.sentenceHandler body minLength maxLength
  if sentences = [] then (String.intercalate " " sentences, 0)
  else (String.intercalate " " (run_clusters ctx sentences ratio algorithm useFirst numSentences), 1)

/-! ## Embedding of the `summarize` class (bert.py lines 325-378) -/

/-- Context of external NLTK collaborators used by `summarize.get_summary`:
`sent_tokenize`, `word_tokenize` and the English stop-word corpus. -/
structure NLPCtx where
  sentTokenize : String → List String
  wordTokenize : String → List String
  stopWords : List String

/-- The characters removed by `input.strip('\t\n')`. -/
def stripChars : List Char := ['\t', '\n']

/-- Embeds Python `s.strip('\t\n')`: drop leading and trailing tab/newline
characters. -/
def pyStrip (s : String) : String :=
  ⟨((s.data.dropWhile (fun c => c ∈ stripChars)).reverse.dropWhile
      (fun c => c ∈ stripChars)).reverse⟩

/-- Embeds Python `s.lower()` (character-wise lowering; the inputs considered
here are ASCII, where the two agree). -/
def pyLower (s : String) : String := ⟨s.data.map Char.toLower⟩

/-- The 32 characters of Python's `string.punctuation`, as one-character
strings, which is how `set(string.punctuation)` stores them. -/
def punc : List String :=
  ["!", "\"", "#", "$", "%", "&", "\x27", "(", ")", "*", "+", ",", "-", ".",
   "/", ":", ";", "<", "=", ">", "?", "@", "[", "\\", "]", "^", "_", "\x60",
   "\x7b", "|", "\x7d", "~"]

/-- Embeds Python `j in s` on strings: substring containment. -/
def pyIn (needle hay : String) : Bool := decide (needle.data <:+: hay.data)

/-- The filtered word list of `get_summary` (bert.py lines 334-343): the
tokens of the stripped, lowercased input with stop-words and single-character
punctuation tokens removed. -/
def filteredWords (ctx : NLPCtx) (input : String) : List String :=
  (ctx.wordTokenize (pyLower (pyStrip input))).filter
    (fun w => decide (w ∉ ctx.stopWords ∧ w ∉ punc))

/-- `total_words` (bert.py line 344). -/
def totalWords (ctx : NLPCtx) (input : String) : Nat :=
  (filteredWords ctx input).length

/-- One step of building the `word_frequency` dictionary (bert.py
lines 347-351): increment the entry of `w` when present, otherwise append a
new entry `(w, 1.0)` at the end (Python dictionaries preserve insertion
order). -/
def addWord : List (String × ℚ) → String → List (String × ℚ)
  | [], w => [(w, 1)]
  | p :: t, w => if p.1 = w then (p.1, p.2 + 1) :: t else p :: addWord t w

/-- The raw occurrence-count dictionary (bert.py lines 345-351). -/
def wordFrequencyRaw (ctx : NLPCtx) (input : String) : List (String × ℚ) :=
  (filteredWords ctx input).foldl addWord []

/-- The normalized `word_frequency` dictionary (bert.py lines 352-353): every
value is divided by `total_words`. -/
def wordFrequency (ctx : NLPCtx) (input : String) : List (String × ℚ) :=
  (wordFrequencyRaw ctx input).map
    (fun p => (p.1, p.2 / (totalWords ctx input : ℚ)))

/-- The score of one sentence (bert.py lines 355-358): the sum, over the
dictionary entries in order, of the frequencies of the words contained in the
sentence as substrings. -/
def sentenceScore (table : List (String × ℚ)) (sent : String) : ℚ :=
  table.foldl (fun acc p => if pyIn p.1 sent then acc + p.2 else acc) 0

/-- The `tracker` score list (bert.py lines 354-358), one score per sentence
of the raw (unstripped, original-case) input. -/
def tracker (ctx : NLPCtx) (input : String) : List ℚ :=
  (ctx.sentTokenize input).map (sentenceScore (wordFrequency ctx input))

/-- Embeds `max(enumerate(tracker), key=operator.itemgetter(1))`: the first
index attaining the maximum value, with that value; `none` on the empty list
(where Python's `max` would raise, a case the caller never reaches). -/
def pyArgmax : List ℚ → Option (Nat × ℚ)
  | [] => none
  | x :: xs =>
    match pyArgmax xs with
    | none => some (0, x)
    | some (j, v) => if v > x then some (j + 1, v) else some (0, x)

/-- Embeds Python `tracker.remove(v)`: removes the first occurrence of the
value `v`. -/
def pyRemoveFirst : List ℚ → ℚ → List ℚ
  | [], _ => []
  | x :: xs, v => if x = v then xs else x :: pyRemoveFirst xs v

/-- The selection loop of `get_summary` (bert.py lines 359-365).  The fuel is
`len(tracker)`, evaluated once by `range(0, len(tracker))`; each iteration
takes the argmax of the current (shrunken) tracker, appends
`sentences_original[index]` when capacity remains and it is not yet selected,
breaks when the output exceeds `max_sentences` (which never happens, since an
append is guarded by the capacity test), and removes the first occurrence of
the value `tracker[index]`. -/
def selectLoop (sentences : List String) (maxS : Nat) :
    Nat → List ℚ → List String → List String
  | 0, _, out => out
  | fuel + 1, trk, out =>
    match pyArgmax trk with
    | none => out
    | some (index, _v) =>
      let picked := sentences.getD index ""
      let out' := if out.length + 1 ≤ maxS ∧ picked ∉ out then out ++ [picked] else out
      if out'.length > maxS then out'
      else selectLoop sentences maxS fuel (pyRemoveFirst trk (trk.getD index 0)) out'

/-- Embeds Python `original.index(o)`: index of the first occurrence
(the caller guards membership, so the out-of-list case is unreachable). -/
def pyIndex (l : List String) (o : String) : Nat :=
  match l with
  | [] => 0
  | x :: xs => if x = o then 0 else pyIndex xs o + 1

/-- Embeds `summarize.sort_sentences` (bert.py lines 368-378): collect the
first-occurrence index of every output sentence present in `original`, sort
the indices ascending, and read the sentences back off in that order. -/
def sort_sentences (original output : List String) : List String :=
  let sortedSentArr :=
    pySorted ((output.filter (fun o => decide (o ∈ original))).map
      (fun o => pyIndex original o))
  sortedSentArr.map (fun i => original.getD i "")

/-- Embeds `summarize.get_summary` (bert.py lines 327-367).  The boolean
records whether the non-fatal warning on line 332 was printed.  The unused
`sentences_chopped` (line 337) is omitted. -/
def get_summary (ctx : NLPCtx) (input : String) (maxSentences : Nat) :
    List String × Bool :=
  let sentencesOriginal := ctx.sentTokenize input
  let warned := decide (maxSentences > sentencesOriginal.length)
  let trk := tracker ctx input
  let outputSentence := selectLoop sentencesOriginal maxSentences trk.length trk []
  (sort_sentences sentencesOriginal outputSentence, warned)

/-! ## Concrete collaborator instances used in witnesses and counterexamples -/

/-- A concrete NLP context: three sentences with word tokens chosen so the
frequency table is `q ↦ 1/2, r ↦ 1/6, s ↦ 1/3` and the sentence scores are
`[1/2, 1/6, 1/3]`. -/
def ctxTest : NLPCtx :=
  ⟨fun _ => ["q q q", "r", "s s"], fun _ => ["q", "q", "q", "r", "s", "s"], []⟩

/-- A concrete model context whose sentence handler yields one sentence and
whose clusterer selects index 0. -/
def ctxB : BertCtx :=
  ⟨fun content _ _ => content.map (fun _ => [1]),
   fun _ _ _ _ _ => [0],
   fun _ _ _ => ["a sentence"], -2, "mean", 12345⟩

/-- Like `ctxB` but with a sentence handler that filters every sentence
out. -/
def ctxE : BertCtx :=
  ⟨fun content _ _ => content.map (fun _ => [1]),
   fun _ _ _ _ _ => [0],
   fun _ _ _ => [], -2, "mean", 12345⟩

/-- Like `ctxB` but with a different sentence handler (used to observe that
`cluster_runner` does not depend on it). -/
def ctxB' : BertCtx :=
  ⟨fun content _ _ => content.map (fun _ => [1]),
   fun _ _ _ _ _ => [0],
   fun _ _ _ => ["another sentence entirely"], -2, "mean", 12345⟩

/-- A concrete model context whose clusterer returns the out-of-order index
list `[2, 1]`. -/
def ctxC : BertCtx :=
  ⟨fun content _ _ => content.map (fun _ => [2]),
   fun _ _ _ _ _ => [2, 1],
   fun _ _ _ => ["s0", "s1", "s2"], -2, "mean", 12345⟩

/-- Dictionary lookup in the association-list embedding of a Python dict
(proof-side helper). -/
def lookupQ : List (String × ℚ) → String → Option ℚ
  | [], _ => none
  | p :: t, w => if p.1 = w then some p.2 else lookupQ t w

/-! ## Lemmas about the `use_first` adjustment -/

/-- With `use_first` set, index `0` is always in the adjusted index list. -/
theorem zero_mem_clusterRunnerArgs (args : List Nat) :
    0 ∈ clusterRunnerArgs args true := by
  unfold clusterRunnerArgs
  cases args with
  | nil => simp
  | cons b r =>
    by_cases hb : b = 0
    · simp [hb]
    · simp [hb]

/-- The `use_first` adjustment preserves strict ascending order. -/
theorem sorted_clusterRunnerArgs (args : List Nat) (useFirst : Bool)
    (h : List.Sorted (· < ·) args) :
    List.Sorted (· < ·) (clusterRunnerArgs args useFirst) := by
  unfold clusterRunnerArgs
  cases useFirst with
  | false => simpa using h
  | true =>
    cases args with
    | nil => simp
    | cons b r =>
      by_cases hb : b = 0
      · simpa [hb] using h
      · simp only [hb, ne_eq, not_false_eq_true, if_true, ite_true]
        rw [List.sorted_cons]
        refine ⟨?_, h⟩
        intro x hx
        rcases List.mem_cons.mp hx with hxb | hxr
        · subst hxb; exact Nat.pos_of_ne_zero hb
        · exact Nat.lt_trans (Nat.pos_of_ne_zero hb) ((List.sorted_cons.mp h).1 x hxr)

/-! ## Claims C1 to C5 -/

/-- Claim C3: in `cluster_runner` with `use_first` true, an empty index list
becomes `[0]`, a list whose first entry is nonzero gets `0` inserted in front,
and consequently index 0 — the first sentence — is always among the returned
selection. -/
theorem claim_c3 (ctx : BertCtx) (content : List String) ( ratio : ℚ)
    (algorithm : String) (numSentences : Option Int) (args : List Nat)
    (a : Nat) (rest : List Nat) (ha : a ≠ 0) :
    clusterRunnerArgs [] true = [0]
    ∧ clusterRunnerArgs (a :: rest) true = 0 :: a :: rest
    ∧ 0 ∈ clusterRunnerArgs args true
    ∧ content.getD 0 "" ∈ (cluster_runner ctx content ratio algorithm true numSentences).1 := by
  refine ⟨rfl, by simp [clusterRunnerArgs, ha], zero_mem_clusterRunnerArgs args, ?_⟩
  unfold cluster_runner
  exact List.mem_map_of_mem _ (zero_mem_clusterRunnerArgs _)

/-- Witness for C3 at concrete inputs. -/
theorem claim_c3_witness :
    (2 : Nat) ≠ 0
    ∧ (clusterRunnerArgs [] true = [0]
      ∧ clusterRunnerArgs (2 :: [5]) true = 0 :: 2 :: [5]
      ∧ 0 ∈ clusterRunnerArgs [7] true
      ∧ (["x", "y"] : List String).getD 0 ""
          ∈ (cluster_runner ctxB ["x", "y"] 0 "kmeans" true none).1) :=
  ⟨by decide, claim_c3 ctxB ["x", "y"] 0 "kmeans" none [7] 2 [5] (by decide)⟩

/-- Claim C4 fails as stated: `cluster_runner` applies no sort, so when the
clusterer hands back the index list `[2, 1]` the selected sentences are
`["s0", "s2", "s1"]`, whose original-index sequence `[0, 2, 1]` is not
ascending. -/
theorem claim_c4_counterexample :
    ¬ List.Sorted (· < ·)
      (((cluster_runner ctxC ["s0", "s1", "s2"] 0 "kmeans" true none).1).map
        (fun s => pyIndex ["s0", "s1", "s2"] s)) := by
  decide

/-- Claim C4 (amended): provided the cluster index list is strictly ascending
(which the external clusterer guarantees by returning sorted indices), the
selection index list produced by `cluster_runner`'s `use_first` adjustment is
strictly ascending by original sentence index and duplicate-free. -/
theorem claim_c4_amended (args : List Nat) (useFirst : Bool)
    (h : List.Sorted (· < ·) args) :
    List.Sorted (· < ·) (clusterRunnerArgs args useFirst)
    ∧ (clusterRunnerArgs args useFirst).Nodup :=
  ⟨sorted_clusterRunnerArgs args useFirst h,
   (sorted_clusterRunnerArgs args useFirst h).nodup⟩

/-- Witness for the amended C4 at a concrete input. -/
theorem claim_c4_witness :
    List.Sorted (· < ·) ([1, 3] : List Nat)
    ∧ (List.Sorted (· < ·) (clusterRunnerArgs [1, 3] true)
      ∧ (clusterRunnerArgs [1, 3] true).Nodup) :=
  ⟨by decide, claim_c4_amended [1, 3] true (by decide)⟩

/-- Claim C5: `cluster_runner` is deterministic — its output depends only on
the model function, the hidden-layer selector, the reduce option, the
clusterer and the configured `random_state` (together with the explicit call
arguments), and in particular two calls agreeing on those produce identical
selections. -/
theorem claim_c5_deterministic (c₁ c₂ : BertCtx) (content : List String)
    ( ratio : ℚ) (algorithm : String) (useFirst : Bool) (numSentences : Option Int)
    (hm : c₁.modelFn = c₂.modelFn) (hh : c₁.hidden = c₂.hidden)
    (hr : c₁.reduceOption = c₂.reduceOption) (hc : c₁.clusterFn = c₂.clusterFn)
    (hs : c₁.randomState = c₂.randomState) :
    cluster_runner c₁ content ratio algorithm useFirst numSentences
      = cluster_runner c₂ content ratio algorithm useFirst numSentences := by
  unfold cluster_runner
  rw [hm, hh, hr, hc, hs]

/-- Witness for C5: two contexts that differ only in their sentence handler
produce the same selection. -/
theorem claim_c5_witness :
    (ctxB.modelFn = ctxB'.modelFn ∧ ctxB.hidden = ctxB'.hidden
      ∧ ctxB.reduceOption = ctxB'.reduceOption ∧ ctxB.clusterFn = ctxB'.clusterFn
      ∧ ctxB.randomState = ctxB'.randomState)
    ∧ cluster_runner ctxB ["x", "y"] 0 "kmeans" true none
        = cluster_runner ctxB' ["x", "y"] 0 "kmeans" true none :=
  ⟨⟨rfl, rfl, rfl, rfl, rfl⟩,
   claim_c5_deterministic ctxB ctxB' ["x", "y"] 0 "kmeans" true none rfl rfl rfl rfl rfl⟩

/-- Claim C1 fails as stated: at a body whose sentences survive filtering, an
invalid `aggregate` does raise the configuration error, but the model
computation counter is `1`, not `0` — embedding extraction and clustering ran
before the `assert` fired. -/
theorem claim_c1_counterexample :
    (run_embeddings ctxB "body" 0 40 600 true "kmeans" none (some "bogus")).1
        = Except.error "aggregate must be mean, min, max, or median"
    ∧ (run_embeddings ctxB "body" 0 40 600 true "kmeans" none (some "bogus")).2 ≠ 0 := by
  constructor <;> simp [run_embeddings, ctxB]

/-- Claim C1 (amended): for an invalid `aggregate` value, when no sentence
survives filtering `run_embeddings` silently returns the no-result sentinel
(no error at all), and when sentences do survive it raises the configuration
error only after the one model computation (embedding extraction plus
clustering) has run. -/
theorem claim_c1_amended (ctx : BertCtx) (body : String) ( ratio : ℚ)
    (minLength maxLength : Int) (useFirst : Bool) (algorithm : String)
    (numSentences : Option Int) (a : String)
    (ha : a ∉ (["mean", "median", "max", "min"] : List String)) :
    (ctx.sentenceHandler body minLength maxLength = [] →
      run_embeddings ctx body ratio minLength maxLength useFirst algorithm
        numSentences (some a) = (Except.ok none, 0))
    ∧ (ctx.sentenceHandler body minLength maxLength ≠ [] →
      (run_embeddings ctx body ratio minLength maxLength useFirst algorithm
          numSentences (some a)).1
        = Except.error "aggregate must be mean, min, max, or median"
      ∧ (run_embeddings ctx body ratio minLength maxLength useFirst algorithm
          numSentences (some a)).2 = 1) := by
  constructor
  · intro h
    simp [run_embeddings, h]
  · intro h
    simp [run_embeddings, h, ha]

/-- Witness for the amended C1 at concrete inputs. -/
theorem claim_c1_witness :
    ("bogus" ∉ (["mean", "median", "max", "min"] : List String))
    ∧ ((run_embeddings ctxB "body" 0 40 600 true "kmeans" none (some "bogus")).1
        = Except.error "aggregate must be mean, min, max, or median"
      ∧ (run_embeddings ctxB "body" 0 40 600 true "kmeans" none (some "bogus")).2 = 1) :=
  ⟨by decide,
   (claim_c1_amended ctxB "body" 0 40 600 true "kmeans" none "bogus" (by decide)).2
     (by decide)⟩

/-- Claim C2: when sentence segmentation and length filtering yield no
sentences, `run` returns the empty string, `run_embeddings` returns the
no-result sentinel, and neither raises (both results are ordinary returns with
no model computation). -/
theorem claim_c2 (ctx : BertCtx) (body : String) ( ratio : ℚ)
    (minLength maxLength : Int) (useFirst : Bool) (algorithm : String)
    (numSentences : Option Int) (aggregate : Option String)
    (h : ctx.sentenceHandler body minLength maxLength = []) :
    run ctx body ratio minLength maxLength useFirst algorithm numSentences = ("", 0)
    ∧ run_embeddings ctx body ratio minLength maxLength useFirst algorithm
        numSentences aggregate = (Except.ok none, 0) := by
  constructor <;> simp [run, run_embeddings, h, String.intercalate]

/-- Witness for C2 at a concrete context whose handler filters everything
out. -/
theorem claim_c2_witness :
    (ctxE.sentenceHandler "anything" 40 600 = [])
    ∧ (run ctxE "anything" 0 40 600 true "kmeans" none = ("", 0)
      ∧ run_embeddings ctxE "anything" 0 40 600 true "kmeans" none none
          = (Except.ok none, 0)) :=
  ⟨rfl, claim_c2 ctxE "anything" 0 40 600 true "kmeans" none none rfl⟩

/-! ## Lemmas about the word-frequency dictionary -/

/-- Effect of one `addWord` step on lookups: the entry of the added word is
incremented (from a default of zero), every other entry is unchanged. -/
theorem lookup_addWord (t : List (String × ℚ)) (r w : String) :
    lookupQ (addWord t r) w
      = if w = r then some ((lookupQ t r).getD 0 + 1) else lookupQ t w := by
  induction t with
  | nil =>
    by_cases h : w = r
    · simp [addWord, lookupQ, h]
    · have h' : ¬ r = w := fun e => h e.symm
      simp [addWord, lookupQ, h, h']
  | cons p t ih =>
    by_cases hpr : p.1 = r
    · by_cases hw : w = r
      · subst hw
        simp [addWord, lookupQ, hpr]
      · have hpw : ¬ p.1 = w := fun e => hw (e.symm.trans hpr)
        have hrw : ¬ r = w := fun e => hw e.symm
        simp [addWord, lookupQ, hpr, hw, hpw, hrw]
    · by_cases hpw : p.1 = w
      · have hwr : ¬ w = r := fun e => hpr (hpw.trans e)
        simp [addWord, lookupQ, hpr, hpw, hwr]
      · simp [addWord, lookupQ, hpr, hpw, ih]

/-- Lookup after folding `addWord` over a word list: present if and only if
the word occurs in the list or was already present, with its count added. -/
theorem lookup_foldl_addWord (rem : List String) (t : List (String × ℚ)) (w : String) :
    lookupQ (rem.foldl addWord t) w
      = if w ∈ rem ∨ (lookupQ t w).isSome
        then some ((lookupQ t w).getD 0 + (rem.count w : ℚ)) else none := by
  induction rem generalizing t with
  | nil => cases h : lookupQ t w <;> simp [h]
  | cons r rem ih =>
    rw [List.foldl_cons, ih (addWord t r), lookup_addWord]
    by_cases hw : w = r
    · subst hw
      simp only [if_pos rfl, Option.isSome_some, or_true, if_pos, Option.getD_some,
        List.count_cons_self, List.mem_cons, true_or]
      push_cast
      ring_nf
    · have hcount : (r :: rem).count w = rem.count w := by
        rw [List.count_cons]
        simp [hw, show ¬ r = w from fun e => hw e.symm]
      simp only [if_neg hw, hcount, List.mem_cons]
      by_cases hm : w ∈ rem
      · simp [hm]
      · simp [hm, hw]

/-- Effect of `addWord` on the key list: unchanged for a known word, appended
for a new one. -/
theorem keys_addWord (t : List (String × ℚ)) (w : String) :
    (addWord t w).map Prod.fst
      = if w ∈ t.map Prod.fst then t.map Prod.fst else t.map Prod.fst ++ [w] := by
  induction t with
  | nil => simp [addWord]
  | cons p t ih =>
    by_cases hp : p.1 = w
    · simp [addWord, hp]
    · have hne : ¬ w = p.1 := fun e => hp e.symm
      rw [show addWord (p :: t) w = p :: addWord t w by simp [addWord, hp]]
      by_cases hm : w ∈ t.map Prod.fst
      · simp [ih, hm, hne]
      · simp [ih, hm, hne]

/-- Folding `addWord` preserves key-list distinctness (the dictionary has no
duplicate keys). -/
theorem nodupKeys_foldl_addWord (rem : List String) (t : List (String × ℚ))
    (h : (t.map Prod.fst).Nodup) : ((rem.foldl addWord t).map Prod.fst).Nodup := by
  induction rem generalizing t with
  | nil => simpa using h
  | cons r rem ih =>
    rw [List.foldl_cons]
    apply ih
    rw [keys_addWord]
    by_cases hm : r ∈ t.map Prod.fst
    · simpa [hm] using h
    · simp [hm, List.nodup_append, h]

/-- In a dictionary with distinct keys, membership determines the lookup. -/
theorem lookup_of_mem (t : List (String × ℚ)) (w : String) (v : ℚ)
    (hmem : (w, v) ∈ t) (hnd : (t.map Prod.fst).Nodup) : lookupQ t w = some v := by
  induction t with
  | nil => simp at hmem
  | cons p t ih =>
    rcases List.mem_cons.mp hmem with hp | hp
    · simp [lookupQ, ← hp]
    · have hk : w ∈ t.map Prod.fst := List.mem_map_of_mem Prod.fst hp
      have hnd' : p.1 ∉ t.map Prod.fst ∧ (t.map Prod.fst).Nodup := by
        rw [List.map_cons, List.nodup_cons] at hnd
        exact hnd
      have hpw : ¬ p.1 = w := fun e => hnd'.1 (e ▸ hk)
      simp [lookupQ, hpw]
      exact ih hp hnd'.2

/-- Every entry of the raw occurrence dictionary belongs to the filtered word
list and carries exactly its occurrence count. -/
theorem raw_value (ctx : NLPCtx) (input : String) (w : String) (v : ℚ)
    (h : (w, v) ∈ wordFrequencyRaw ctx input) :
    w ∈ filteredWords ctx input ∧ v = ((filteredWords ctx input).count w : ℚ) := by
  have hnd : ((wordFrequencyRaw ctx input).map Prod.fst).Nodup :=
    nodupKeys_foldl_addWord (filteredWords ctx input) [] (by simp)
  have hl : lookupQ (wordFrequencyRaw ctx input) w = some v :=
    lookup_of_mem _ _ _ h hnd
  rw [wordFrequencyRaw, lookup_foldl_addWord] at hl
  by_cases hw : w ∈ filteredWords ctx input
  · refine ⟨hw, ?_⟩
    simp [hw, lookupQ] at hl
    exact hl.symm
  · simp [hw, lookupQ] at hl

/-- The sentence-scoring fold, from an arbitrary accumulator, equals the
accumulator plus the sum of the frequencies of the matching words. -/
theorem sentenceScore_foldl (t : List (String × ℚ)) (sent : String) (a : ℚ) :
    t.foldl (fun acc p => if pyIn p.1 sent then acc + p.2 else acc) a
      = a + ((t.filter (fun p => pyIn p.1 sent)).map Prod.snd).sum := by
  induction t generalizing a with
  | nil => simp
  | cons p t ih =>
    cases hp : pyIn p.1 sent
    · simp [List.foldl_cons, hp, ih]
    · simp [List.foldl_cons, hp, ih]
      ring

/-! ## Claims C7 and C10 -/

/-- Claim C7: every entry of the frequency table equals the word's occurrence
count divided by the total filtered-word count, and every sentence's tracker
score is the sum of the table values of the table words contained in that
sentence as substrings. -/
theorem claim_c7 (ctx : NLPCtx) (input : String) :
    (∀ p ∈ wordFrequency ctx input,
      p.2 = ((filteredWords ctx input).count p.1 : ℚ) / (totalWords ctx input : ℚ))
    ∧ tracker ctx input
        = (ctx.sentTokenize input).map (fun sent =>
            (((wordFrequency ctx input).filter (fun p => pyIn p.1 sent)).map Prod.snd).sum) := by
  constructor
  · intro p hp
    rcases List.mem_map.mp hp with ⟨q, hq, hpq⟩
    rcases raw_value ctx input q.1 q.2 (by simpa using hq) with ⟨-, hval⟩
    rw [← hpq]
    simpa using congrArg (fun x => x / (totalWords ctx input : ℚ)) hval
  · rw [tracker]
    refine List.map_congr_left ?_
    intro sent _
    rw [sentenceScore]
    simpa using sentenceScore_foldl (wordFrequency ctx input) sent 0

/-- Claim C10: any entry of the normalized frequency table forces the
filtered-word total to be positive, so the normalizing division by
`total_words` never divides by zero. -/
theorem claim_c10 (ctx : NLPCtx) (input : String) (p : String × ℚ)
    (hp : p ∈ wordFrequency ctx input) : 0 < totalWords ctx input := by
  rcases List.mem_map.mp hp with ⟨q, hq, -⟩
  rcases raw_value ctx input q.1 q.2 (by simpa using hq) with ⟨hw, -⟩
  rw [totalWords]
  exact List.length_pos.mpr (fun e => by simp [e] at hw)

/-! ## Lemmas about `pySorted`, `pyIndex`, `pyArgmax`, `pyRemoveFirst` -/

/-- Inserting into a list permutes consing. -/
theorem perm_insSorted {α : Type} [LinearOrder α] (x : α) (l : List α) :
    (insSorted x l).Perm (x :: l) := by
  induction l with
  | nil => simp [insSorted]
  | cons y ys ih =>
    by_cases h : x ≤ y
    · simp [insSorted, h]
    · simp only [insSorted, if_neg h]
      exact (ih.cons y).trans (List.Perm.swap x y ys)

/-- `pySorted` permutes its input. -/
theorem perm_pySorted {α : Type} [LinearOrder α] (l : List α) :
    (pySorted l).Perm l := by
  induction l with
  | nil => simp [pySorted]
  | cons x l ih =>
    exact (perm_insSorted x (pySorted l)).trans (ih.cons x)

/-- Insertion preserves ascending order. -/
theorem sorted_insSorted {α : Type} [LinearOrder α] (x : α) (l : List α)
    (h : List.Sorted (· ≤ ·) l) : List.Sorted (· ≤ ·) (insSorted x l) := by
  induction l with
  | nil => simp [insSorted]
  | cons y ys ih =>
    rcases List.sorted_cons.mp h with ⟨hy, hys⟩
    by_cases hxy : x ≤ y
    · simp only [insSorted, if_pos hxy]
      rw [List.sorted_cons]
      refine ⟨?_, h⟩
      intro b hb
      rcases List.mem_cons.mp hb with hb | hb
      · exact hb ▸ hxy
      · exact le_trans hxy (hy b hb)
    · simp only [insSorted, if_neg hxy]
      rw [List.sorted_cons]
      refine ⟨?_, ih hys⟩
      intro b hb
      rcases List.mem_cons.mp ((perm_insSorted x ys).mem_iff.mp hb) with hb | hb
      · exact hb ▸ le_of_not_le hxy
      · exact hy b hb

/-- `pySorted` sorts ascending. -/
theorem sorted_pySorted {α : Type} [LinearOrder α] (l : List α) :
    List.Sorted (· ≤ ·) (pySorted l) := by
  induction l with
  | nil => simp [pySorted]
  | cons x l ih => exact sorted_insSorted x (pySorted l) ih

/-- Reading a list at the first-occurrence index gives the element back. -/
theorem pyIndex_getD (l : List String) (o : String) (h : o ∈ l) :
    l.getD (pyIndex l o) "" = o := by
  induction l with
  | nil => simp at h
  | cons x xs ih =>
    by_cases hx : x = o
    · simp [pyIndex, hx]
    · have ho : o ∈ xs := by
        rcases List.mem_cons.mp h with h' | h'
        · exact absurd h'.symm hx
        · exact h'
      rw [show pyIndex (x :: xs) o = pyIndex xs o + 1 by simp [pyIndex, hx],
        List.getD_cons_succ]
      exact ih ho

/-- The first-occurrence index of a member is in range. -/
theorem pyIndex_lt (l : List String) (o : String) (h : o ∈ l) :
    pyIndex l o < l.length := by
  induction l with
  | nil => simp at h
  | cons x xs ih =>
    by_cases hx : x = o
    · simp [pyIndex, hx]
    · have ho : o ∈ xs := by
        rcases List.mem_cons.mp h with h' | h'
        · exact absurd h'.symm hx
        · exact h'
      simpa [pyIndex, hx] using Nat.succ_lt_succ (ih ho)

/-- `pyIndex` is injective on members. -/
theorem pyIndex_inj (l : List String) (o₁ o₂ : String) (h₁ : o₁ ∈ l) (h₂ : o₂ ∈ l)
    (he : pyIndex l o₁ = pyIndex l o₂) : o₁ = o₂ := by
  have h := pyIndex_getD l o₁ h₁
  rw [he, pyIndex_getD l o₂ h₂] at h
  exact h.symm

/-- The argmax index is in range. -/
theorem pyArgmax_lt (l : List ℚ) (i : Nat) (v : ℚ) (h : pyArgmax l = some (i, v)) :
    i < l.length := by
  induction l generalizing i v with
  | nil => simp [pyArgmax] at h
  | cons x xs ih =>
    cases hxs : pyArgmax xs with
    | none =>
      simp [pyArgmax, hxs] at h
      obtain ⟨hi, -⟩ := h
      simp only [List.length_cons]
      omega
    | some jv =>
      obtain ⟨j, v'⟩ := jv
      by_cases hv : v' > x
      · simp [pyArgmax, hxs, hv] at h
        obtain ⟨hi, -⟩ := h
        have hj := ih j v' hxs
        simp only [List.length_cons]
        omega
      · simp [pyArgmax, hxs, hv] at h
        obtain ⟨hi, -⟩ := h
        simp only [List.length_cons]
        omega

/-- Removing a value never lengthens the list. -/
theorem pyRemoveFirst_length_le (l : List ℚ) (v : ℚ) :
    (pyRemoveFirst l v).length ≤ l.length := by
  induction l with
  | nil => simp [pyRemoveFirst]
  | cons x xs ih =>
    by_cases hx : x = v
    · rw [show pyRemoveFirst (x :: xs) v = xs by simp [pyRemoveFirst, hx]]
      exact Nat.le_succ _
    · simpa [pyRemoveFirst, hx] using Nat.succ_le_succ ih

/-! ## The selection-loop invariant -/

/-- Invariant of the `get_summary` selection loop: starting from a
duplicate-free output within capacity whose members come from the sentence
list, and a tracker no longer than the sentence list, the loop's result is
duplicate-free, within capacity, and drawn from the sentence list. -/
theorem selectLoop_inv (sents : List String) (maxS : Nat) (fuel : Nat) :
    ∀ (trk : List ℚ) (out : List String),
      trk.length ≤ sents.length → out.Nodup → out.length ≤ maxS →
      (∀ s ∈ out, s ∈ sents) →
      ((selectLoop sents maxS fuel trk out).Nodup
        ∧ (selectLoop sents maxS fuel trk out).length ≤ maxS
        ∧ ∀ s ∈ selectLoop sents maxS fuel trk out, s ∈ sents) := by
  induction fuel with
  | zero =>
    intro trk out h1 h2 h3 h4
    exact ⟨h2, h3, h4⟩
  | succ fuel ih =>
    intro trk out h1 h2 h3 h4
    simp only [selectLoop]
    cases harg : pyArgmax trk with
    | none => exact ⟨h2, h3, h4⟩
    | some iv =>
      obtain ⟨index, v⟩ := iv
      dsimp only
      have hidx : index < trk.length := pyArgmax_lt trk index v harg
      have hpicked : sents.getD index "" ∈ sents := by
        rw [List.getD_eq_getElem sents "" (lt_of_lt_of_le hidx h1)]
        exact List.getElem_mem _
      by_cases hcond : out.length + 1 ≤ maxS ∧ sents.getD index "" ∉ out
      · rw [if_pos hcond]
        have h2' : (out ++ [sents.getD index ""]).Nodup := by
          rw [List.nodup_append]
          refine ⟨h2, List.nodup_singleton _, fun a ha hb => ?_⟩
          rw [List.mem_singleton] at hb
          exact hcond.2 (hb ▸ ha)
        have h3' : (out ++ [sents.getD index ""]).length ≤ maxS := by
          simp only [List.length_append, List.length_singleton]
          omega
        have h4' : ∀ s ∈ out ++ [sents.getD index ""], s ∈ sents := by
          intro s hs
          rcases List.mem_append.mp hs with hs | hs
          · exact h4 s hs
          · rw [List.mem_singleton.mp hs]
            exact hpicked
        have hbreak : ¬ (out ++ [sents.getD index ""]).length > maxS := by
          simp only [List.length_append, List.length_singleton]
          omega
        rw [if_neg hbreak]
        exact ih _ _ (le_trans (pyRemoveFirst_length_le _ _) h1) h2' h3' h4'
      · rw [if_neg hcond]
        have hbreak : ¬ out.length > maxS := by omega
        rw [if_neg hbreak]
        exact ih _ _ (le_trans (pyRemoveFirst_length_le _ _) h1) h2 h3 h4

/-! ## Lemmas about `sort_sentences` -/

/-- Any index in the sorted index list of `sort_sentences` is a
first-occurrence index of a member of `original`, and reading the list there
round-trips. -/
theorem sortArr_spec (original output : List String) (i : Nat)
    (hi : i ∈ pySorted ((output.filter (fun o => decide (o ∈ original))).map
      (fun o => pyIndex original o))) :
    original.getD i "" ∈ original ∧ pyIndex original (original.getD i "") = i := by
  have hi' : i ∈ (output.filter (fun o => decide (o ∈ original))).map
      (fun o => pyIndex original o) := (perm_pySorted _).mem_iff.mp hi
  rcases List.mem_map.mp hi' with ⟨o, ho, hoi⟩
  have homem : o ∈ original := of_decide_eq_true (List.mem_filter.mp ho).2
  rw [← hoi, pyIndex_getD original o homem]
  exact ⟨homem, rfl⟩

/-- Every sentence returned by `sort_sentences` occurs in `original`. -/
theorem sort_sentences_mem (original output : List String) (s : String)
    (hs : s ∈ sort_sentences original output) : s ∈ original := by
  rw [sort_sentences] at hs
  rcases List.mem_map.mp hs with ⟨i, hi, his⟩
  rw [← his]
  exact (sortArr_spec original output i hi).1

/-- The first-occurrence positions of the `sort_sentences` output are exactly
its sorted index list. -/
theorem sort_sentences_map_pyIndex (original output : List String) :
    (sort_sentences original output).map (fun t => pyIndex original t)
      = pySorted ((output.filter (fun o => decide (o ∈ original))).map
          (fun o => pyIndex original o)) := by
  rw [sort_sentences, List.map_map]
  have hpt : ∀ i ∈ pySorted ((output.filter (fun o => decide (o ∈ original))).map
      (fun o => pyIndex original o)),
      ((fun t => pyIndex original t) ∘ fun i => original.getD i "") i = i :=
    fun i hi => (sortArr_spec original output i hi).2
  rw [List.map_congr_left hpt]
  simp

/-- The first-occurrence positions of the `sort_sentences` output are
ascending. -/
theorem sort_sentences_sorted (original output : List String) :
    List.Sorted (· ≤ ·)
      ((sort_sentences original output).map (fun t => pyIndex original t)) := by
  rw [sort_sentences_map_pyIndex]
  exact sorted_pySorted _

/-- `sort_sentences` of a duplicate-free output is duplicate-free. -/
theorem sort_sentences_nodup (original output : List String) (h : output.Nodup) :
    (sort_sentences original output).Nodup := by
  have hF : (output.filter (fun o => decide (o ∈ original))).Nodup := h.filter _
  have harr : ((output.filter (fun o => decide (o ∈ original))).map
      (fun o => pyIndex original o)).Nodup := by
    refine hF.map_on ?_
    intro x hx y hy hxy
    exact pyIndex_inj original x y
      (of_decide_eq_true (List.mem_filter.mp hx).2)
      (of_decide_eq_true (List.mem_filter.mp hy).2) hxy
  have hsorted := (perm_pySorted ((output.filter (fun o => decide (o ∈ original))).map
      (fun o => pyIndex original o))).nodup_iff.mpr harr
  rw [sort_sentences]
  refine hsorted.map_on ?_
  intro i hi j hj hij
  have hi2 := (sortArr_spec original output i hi).2
  have hj2 := (sortArr_spec original output j hj).2
  rw [← hi2, ← hj2, hij]

/-- `sort_sentences` never returns more sentences than it was given. -/
theorem sort_sentences_length_le (original output : List String) :
    (sort_sentences original output).length ≤ output.length := by
  rw [sort_sentences, List.length_map,
    (perm_pySorted ((output.filter (fun o => decide (o ∈ original))).map
      (fun o => pyIndex original o))).length_eq, List.length_map]
  exact List.length_filter_le _ _

/-! ## Claims C6 and C8 -/

/-- Claim C6 (amended): `get_summary` returns at most `max_sentences`
pairwise-distinct sentences.  (The claim's further assertion that each step
picks the remaining highest-scoring sentence fails; see the counterexample.) -/
theorem claim_c6_theorem (ctx : NLPCtx) (input : String) (maxS : Nat) :
    (get_summary ctx input maxS).1.length ≤ maxS
    ∧ (get_summary ctx input maxS).1.Nodup := by
  have hsel := selectLoop_inv (ctx.sentTokenize input) maxS
      (tracker ctx input).length (tracker ctx input) []
      (by rw [tracker, List.length_map]) List.nodup_nil (Nat.zero_le _)
      (by intro s hs; simp at hs)
  have hfst : (get_summary ctx input maxS).1
      = sort_sentences (ctx.sentTokenize input)
          (selectLoop (ctx.sentTokenize input) maxS (tracker ctx input).length
            (tracker ctx input) []) := rfl
  rw [hfst]
  exact ⟨le_trans (sort_sentences_length_le _ _) hsel.2.1,
    sort_sentences_nodup _ _ hsel.1⟩

/-- Claim C8: every sentence returned by `get_summary` occurs in the original
sentence sequence, and their first-occurrence positions there are
ascending. -/
theorem claim_c8 (ctx : NLPCtx) (input : String) (maxS : Nat) :
    (∀ s ∈ (get_summary ctx input maxS).1, s ∈ ctx.sentTokenize input)
    ∧ List.Sorted (· ≤ ·)
        (((get_summary ctx input maxS).1).map
          (fun s => pyIndex (ctx.sentTokenize input) s)) := by
  have hfst : (get_summary ctx input maxS).1
      = sort_sentences (ctx.sentTokenize input)
          (selectLoop (ctx.sentTokenize input) maxS (tracker ctx input).length
            (tracker ctx input) []) := rfl
  rw [hfst]
  exact ⟨fun s hs => sort_sentences_mem _ _ s hs, sort_sentences_sorted _ _⟩

/-! ## Concrete evaluations on `ctxTest` -/

/-- Filtered word list of the test context. -/
theorem ctxTest_filtered : filteredWords ctxTest "" = ["q", "q", "q", "r", "s", "s"] := by
  decide

/-- Total filtered-word count of the test context. -/
theorem ctxTest_total : totalWords ctxTest "" = 6 := by decide

/-- Raw occurrence dictionary of the test context. -/
theorem ctxTest_raw : wordFrequencyRaw ctxTest "" = [("q", 3), ("r", 1), ("s", 2)] := by
  rw [wordFrequencyRaw, ctxTest_filtered]
  simp [addWord]
  norm_num

/-- Normalized frequency dictionary of the test context. -/
theorem ctxTest_freq :
    wordFrequency ctxTest "" = [("q", 1/2), ("r", 1/6), ("s", 1/3)] := by
  rw [wordFrequency, ctxTest_raw, ctxTest_total]
  norm_num

/-- Sentence scores of the test context. -/
theorem ctxTest_tracker : tracker ctxTest "" = [1/2, 1/6, 1/3] := by
  rw [tracker, ctxTest_freq]
  rw [show ctxTest.sentTokenize "" = ["q q q", "r", "s s"] from rfl]
  have h1 : pyIn "q" "q q q" = true := by decide
  have h2 : pyIn "r" "q q q" = false := by decide
  have h3 : pyIn "s" "q q q" = false := by decide
  have h4 : pyIn "q" "r" = false := by decide
  have h5 : pyIn "r" "r" = true := by decide
  have h6 : pyIn "s" "r" = false := by decide
  have h7 : pyIn "q" "s s" = false := by decide
  have h8 : pyIn "r" "s s" = false := by decide
  have h9 : pyIn "s" "s s" = true := by decide
  simp [sentenceScore, h1, h2, h3, h4, h5, h6, h7, h8, h9]

/-- Selection loop of the test context with capacity 2: the second pick is
`"r"`, because the argmax position `1` of the shrunken tracker `[1/6, 1/3]` is
used to index the original sentence list. -/
theorem ctxTest_select2 :
    selectLoop ["q q q", "r", "s s"] 2 3 [1/2, 1/6, 1/3] [] = ["q q q", "r"] := by
  iterate 4
    try norm_num [selectLoop, pyArgmax, pyRemoveFirst]
    try simp [selectLoop, pyArgmax, pyRemoveFirst]

/-- Selection loop of the test context with capacity 4: even with spare
capacity, `"s s"` is never picked. -/
theorem ctxTest_select4 :
    selectLoop ["q q q", "r", "s s"] 4 3 [1/2, 1/6, 1/3] [] = ["q q q", "r"] := by
  iterate 4
    try norm_num [selectLoop, pyArgmax, pyRemoveFirst]
    try simp [selectLoop, pyArgmax, pyRemoveFirst]

/-- Full `get_summary` run on the test context with `max_sentences = 2`. -/
theorem ctxTest_get2 : get_summary ctxTest "" 2 = (["q q q", "r"], false) := by
  simp only [get_summary]
  rw [show ctxTest.sentTokenize "" = ["q q q", "r", "s s"] from rfl, ctxTest_tracker]
  rw [show ([(1:ℚ)/2, 1/6, 1/3]).length = 3 from rfl, ctxTest_select2]
  decide

/-- Full `get_summary` run on the test context with `max_sentences = 4`,
more than the three available sentences. -/
theorem ctxTest_get4 : get_summary ctxTest "" 4 = (["q q q", "r"], true) := by
  simp only [get_summary]
  rw [show ctxTest.sentTokenize "" = ["q q q", "r", "s s"] from rfl, ctxTest_tracker]
  rw [show ([(1:ℚ)/2, 1/6, 1/3]).length = 3 from rfl, ctxTest_select4]
  decide

/-! ## Claim C6 counterexample, claim C9 evaluation, remaining witnesses -/

/-- Claim C6 fails as stated: with `max_sentences = 2` the code returns
`["q q q", "r"]`, yet the omitted sentence `"s s"` scores strictly higher than
the returned sentence `"r"` — the second pick is not the remaining
highest-scoring sentence. -/
theorem claim_c6_counterexample :
    (get_summary ctxTest "" 2).1 = ["q q q", "r"]
    ∧ "s s" ∉ (get_summary ctxTest "" 2).1
    ∧ sentenceScore (wordFrequency ctxTest "") "r"
        < sentenceScore (wordFrequency ctxTest "") "s s" := by
  refine ⟨by rw [ctxTest_get2], by rw [ctxTest_get2]; decide, ?_⟩
  rw [ctxTest_freq]
  have h4 : pyIn "q" "r" = false := by decide
  have h5 : pyIn "r" "r" = true := by decide
  have h6 : pyIn "s" "r" = false := by decide
  have h7 : pyIn "q" "s s" = false := by decide
  have h8 : pyIn "r" "s s" = false := by decide
  have h9 : pyIn "s" "s s" = true := by decide
  simp [sentenceScore, h4, h5, h6, h7, h8, h9]
  norm_num

/-- Claim C9's failing input evaluated: with `max_sentences = 4` and three
sentences available, the warning fires and the call completes, but only two of
the three sentences are returned — `"s s"` is dropped. -/
theorem claim_c9_eval :
    get_summary ctxTest "" 4 = (["q q q", "r"], true)
    ∧ ctxTest.sentTokenize "" = ["q q q", "r", "s s"]
    ∧ "s s" ∉ (get_summary ctxTest "" 4).1 :=
  ⟨ctxTest_get4, rfl, by rw [ctxTest_get4]; decide⟩

/-- Witness for C7 at a concrete entry of the test context's table. -/
theorem claim_c7_witness :
    (("q", (1:ℚ)/2) ∈ wordFrequency ctxTest "")
    ∧ ("q", (1:ℚ)/2).2
        = ((filteredWords ctxTest "").count ("q", (1:ℚ)/2).1 : ℚ)
          / (totalWords ctxTest "" : ℚ) := by
  have hmem : ("q", (1:ℚ)/2) ∈ wordFrequency ctxTest "" := by
    rw [ctxTest_freq]
    simp
  exact ⟨hmem, (claim_c7 ctxTest "").1 ("q", (1:ℚ)/2) hmem⟩

/-- Witness for C8 at a concrete input. -/
theorem claim_c8_witness :
    ("q q q" ∈ (get_summary ctxTest "" 2).1)
    ∧ ("q q q" ∈ ctxTest.sentTokenize "")
    ∧ List.Sorted (· ≤ ·)
        (((get_summary ctxTest "" 2).1).map
          (fun s => pyIndex (ctxTest.sentTokenize "") s)) := by
  have hmem : "q q q" ∈ (get_summary ctxTest "" 2).1 := by
    rw [ctxTest_get2]
    decide
  exact ⟨hmem, (claim_c8 ctxTest "" 2).1 "q q q" hmem, (claim_c8 ctxTest "" 2).2⟩

/-- Witness for C10 at a concrete entry of the test context's table. -/
theorem claim_c10_witness :
    (("q", (1:ℚ)/2) ∈ wordFrequency ctxTest "") ∧ 0 < totalWords ctxTest "" := by
  have hmem : ("q", (1:ℚ)/2) ∈ wordFrequency ctxTest "" := by
    rw [ctxTest_freq]
    simp
  exact ⟨hmem, claim_c10 ctxTest "" ("q", (1:ℚ)/2) hmem⟩
